import Mathlib

set_option linter.unusedSectionVars false

/-!
Shallow embedding of the ring buffer `CircularBuff<T>` from
`src/circularBuffer/C++/cBuff.hpp`, together with proofs of the claims
made by the specification about it.

The C++ state consists of the backing array `m_buf` (allocated with
`m_maxSize` slots at construction), the cursors `m_head` and `m_tail`,
the fixed capacity `m_maxSize`, and the flag `m_full`.  The mutex only
serialises the operations and has no effect on the sequential semantics
modelled here, so it is omitted.  `size_t` values are modelled as `Nat`;
under the state invariant proved below no subtraction underflows and no
addition reaches `2^64`, so `Nat` arithmetic agrees with `size_t`
arithmetic on every state the theorems quantify over.
-/

structure CircularBuff (T : Type) where
  m_buf : List T
  m_head : Nat
  m_tail : Nat
  m_maxSize : Nat
  m_full : Bool
deriving Repr, DecidableEq

/-- C++ `%` on unsigned operands: defined when the divisor is nonzero,
undefined behaviour (modelled as `none`) when it is zero. -/
def cppMod (a b : Nat) : Option Nat :=
  if b = 0 then none else some (a % b)

namespace CircularBuff

variable {T : Type} [Inhabited T]

/-- Constructor `CircularBuff(size_t size)` (cBuff.hpp lines 48-53):
allocates `size` slots and sets `m_maxSize = size`; the cursors and the
full flag keep their member initialisers `m_head = 0`, `m_tail = 0`,
`m_full = 0`.  Note that the C++ code performs no validation of `size`
whatsoever: `size == 0` is accepted. -/
def ofCapacity (size : Nat) : CircularBuff T :=
  { m_buf := List.replicate size default
    m_head := 0
    m_tail := 0
    m_maxSize := size
    m_full := false }

/-- `reset()` (lines 75-81): `m_head = m_tail; m_full = false;`.
The slot contents are not touched. -/
def reset (s : CircularBuff T) : CircularBuff T :=
  { s with m_head := s.m_tail, m_full := false }

/-- `empty()` (lines 90-100): true iff the full flag is clear and the
cursors coincide. -/
def empty (s : CircularBuff T) : Bool :=
  (!s.m_full) && (s.m_head == s.m_tail)

/-- `full()` (lines 109-113): returns the `m_full` flag directly. -/
def full (s : CircularBuff T) : Bool :=
  s.m_full

/-- `capacity()` (lines 122-126): returns `m_maxSize`. -/
def capacity (s : CircularBuff T) : Nat :=
  s.m_maxSize

/-- `size()` (lines 135-153): `m_maxSize` when full, otherwise
`m_head - m_tail` when `m_head >= m_tail`, else
`m_maxSize + m_head - m_tail`. -/
def size (s : CircularBuff T) : Nat :=
  if s.m_full then s.m_maxSize
  else if s.m_head ≥ s.m_tail then s.m_head - s.m_tail
  else s.m_maxSize + s.m_head - s.m_tail

/-- `put(T item)` (lines 162-177): writes `item` at `m_buf[m_head]`;
if full, advances `m_tail` one slot mod capacity; advances `m_head` one
slot mod capacity; recomputes `m_full = (m_head == m_tail)`.  The `%`
is total here (`Nat` semantics); `putU` below keeps the zero-divisor
undefinedness explicit, and the two agree whenever `m_maxSize > 0`. -/
def put (s : CircularBuff T) (item : T) : CircularBuff T :=
  let buf := s.m_buf.set s.m_head item
  let tail := if s.m_full then (s.m_tail + 1) % s.m_maxSize else s.m_tail
  let head := (s.m_head + 1) % s.m_maxSize
  { s with m_buf := buf, m_tail := tail, m_head := head,
           m_full := head == tail }

/-- `put(T item)` again, with the C++ `%` modelled by `cppMod` so that
the modulo-by-zero performed when the buffer was constructed with
capacity 0 surfaces as `none` (undefined behaviour). -/
def putU (s : CircularBuff T) (item : T) : Option (CircularBuff T) :=
  let buf := s.m_buf.set s.m_head item
  match (if s.m_full then cppMod (s.m_tail + 1) s.m_maxSize else some s.m_tail),
        cppMod (s.m_head + 1) s.m_maxSize with
  | some tail, some head =>
      some { s with m_buf := buf, m_tail := tail, m_head := head,
                    m_full := head == tail }
  | _, _ => none

/-- `get()` (lines 186-202): on an empty buffer returns the
value-initialised `T()` (modelled by `default`) and changes nothing;
otherwise reads `m_buf[m_tail]`, clears `m_full`, advances `m_tail` one
slot mod capacity, and returns the value read. -/
def get (s : CircularBuff T) : T × CircularBuff T :=
  if s.empty then (default, s)
  else
    let val := s.m_buf.getD s.m_tail default
    (val, { s with m_full := false, m_tail := (s.m_tail + 1) % s.m_maxSize })

/-- `write(T buff[], size_t size)` (lines 212-219): `put` each element
of the input array in order. -/
def write (s : CircularBuff T) (items : List T) : CircularBuff T :=
  items.foldl put s

/-- Loop body of `read` (lines 232-240): `i` is the loop counter, `k`
the number of iterations remaining out of the requested `size`; each
iteration stops if the buffer is empty, otherwise stores `get()` into
`buff[i]`.  Returns `(i, buffer state, dest array)` at loop exit. -/
def readAux (s : CircularBuff T) (dest : List T) (i : Nat) :
    Nat → Nat × CircularBuff T × List T
  | 0 => (i, s, dest)
  | k + 1 =>
      if s.empty then (i, s, dest)
      else
        let p := s.get
        readAux p.2 (dest.set i p.1) (i + 1) k

/-- `read(T* buff, size_t size)` (lines 229-244): pops up to `size`
elements into `buff`, returning the number of objects read together
with the resulting buffer state and destination array. -/
def read (s : CircularBuff T) (dest : List T) (n : Nat) :
    Nat × CircularBuff T × List T :=
  readAux s dest 0 n

/-- The state invariant maintained by every operation on a buffer
constructed with positive capacity: the cursors are in range, the
backing store has exactly `m_maxSize` slots, and the full flag is only
ever set when the cursors coincide. -/
def Inv (s : CircularBuff T) : Prop :=
  s.m_head < s.m_maxSize ∧ s.m_tail < s.m_maxSize ∧
  s.m_buf.length = s.m_maxSize ∧ (s.m_full = true → s.m_head = s.m_tail)

instance (s : CircularBuff T) : Decidable s.Inv := by
  unfold Inv
  infer_instance

/-- The abstract FIFO contents of the buffer: the `size` stored values
in the order `get` would return them, starting at `m_tail`. -/
def toList (s : CircularBuff T) : List T :=
  (List.range s.size).map (fun i => s.m_buf.getD ((s.m_tail + i) % s.m_maxSize) default)

/-! Helper lemmas about list indexing with defaults. -/

theorem getD_set_self (l : List T) (i : Nat) (a d : T) (h : i < l.length) :
    (l.set i a).getD i d = a := by
  rw [List.getD_eq_getElem _ _ (by simpa using h)]
  exact List.getElem_set_self _

theorem getD_set_ne (l : List T) (i j : Nat) (a d : T) (hne : i ≠ j) :
    (l.set i a).getD j d = l.getD j d := by
  by_cases hj : j < l.length
  · rw [List.getD_eq_getElem _ _ (by simpa using hj),
      List.getD_eq_getElem _ _ hj]
    exact List.getElem_set_ne hne _
  · have hl : l.length ≤ j := by omega
    have hl2 : (l.set i a).length ≤ j := by
      simp only [List.length_set]
      omega
    rw [List.getD_eq_default _ _ hl, List.getD_eq_default _ _ hl2]

/-! Basic facts connecting the operations. -/

/-- With a positive capacity, the total-`Nat` `put` and the
UB-explicit `putU` agree. -/
theorem putU_eq_put (s : CircularBuff T) (x : T) (h : 0 < s.m_maxSize) :
    s.putU x = some (s.put x) := by
  have h0 : s.m_maxSize ≠ 0 := by omega
  unfold putU put cppMod
  by_cases hf : s.m_full <;> simp [hf, h0]

theorem get_of_empty (s : CircularBuff T) (h : s.empty = true) :
    s.get = (default, s) := by
  unfold get
  simp [h]

theorem get_of_not_empty (s : CircularBuff T) (h : s.empty = false) :
    s.get = (s.m_buf.getD s.m_tail default,
      { s with m_full := false, m_tail := (s.m_tail + 1) % s.m_maxSize }) := by
  unfold get
  simp [h]

theorem size_eq_zero_of_empty (s : CircularBuff T) (h : s.empty = true) :
    s.size = 0 := by
  unfold empty at h
  simp only [Bool.and_eq_true, Bool.not_eq_true', beq_iff_eq] at h
  unfold size
  simp [h.1, h.2]

theorem one_le_size_of_not_empty (s : CircularBuff T) (hInv : s.Inv)
    (h : s.empty = false) : 1 ≤ s.size := by
  obtain ⟨h1, h2, _, _⟩ := hInv
  unfold empty at h
  unfold size
  cases hf : s.m_full with
  | true => simp; omega
  | false =>
      simp only [hf, Bool.not_false, Bool.true_and, beq_eq_false_iff_ne,
        ne_eq] at h
      simp only [Bool.false_eq_true, if_false, ge_iff_le]
      split <;> omega

/-- Immediately after any `put`, the buffer reports non-empty: the full
flag is recomputed as `head == tail`, so the two conjuncts of `empty`
can never hold together. -/
theorem empty_put (s : CircularBuff T) (x : T) : (s.put x).empty = false := by
  unfold put empty
  simp only []
  by_cases h : ((s.m_head + 1) % s.m_maxSize ==
      if s.m_full then (s.m_tail + 1) % s.m_maxSize else s.m_tail) = true <;>
    simp_all

/-! Preservation of the state invariant. -/

theorem inv_ofCapacity (cap : Nat) (h : 0 < cap) :
    (CircularBuff.ofCapacity cap : CircularBuff T).Inv := by
  unfold Inv ofCapacity
  simp [h]

theorem inv_put (s : CircularBuff T) (x : T) (hInv : s.Inv) : (s.put x).Inv := by
  obtain ⟨h1, h2, h3, _⟩ := hInv
  have hc : 0 < s.m_maxSize := by omega
  unfold put Inv
  refine ⟨Nat.mod_lt _ hc, ?_, by simpa using h3, ?_⟩
  · split
    · exact Nat.mod_lt _ hc
    · exact h2
  · simp only [beq_iff_eq]
    exact fun h => h

theorem inv_get (s : CircularBuff T) (hInv : s.Inv) : (s.get).2.Inv := by
  obtain ⟨h1, h2, h3, h4⟩ := hInv
  have hc : 0 < s.m_maxSize := by omega
  by_cases he : s.empty
  · rw [get_of_empty s he]
    exact ⟨h1, h2, h3, h4⟩
  · rw [get_of_not_empty s (by simpa using he)]
    exact ⟨h1, Nat.mod_lt _ hc, h3, by simp⟩

theorem inv_reset (s : CircularBuff T) (hInv : s.Inv) : s.reset.Inv := by
  obtain ⟨_, h2, h3, _⟩ := hInv
  exact ⟨h2, h2, h3, by simp [reset]⟩

theorem inv_write (s : CircularBuff T) (items : List T) (hInv : s.Inv) :
    (s.write items).Inv := by
  unfold write
  induction items generalizing s with
  | nil => exact hInv
  | cons a l ih => exact ih (s.put a) (inv_put s a hInv)

theorem inv_readAux (s : CircularBuff T) (dest : List T) (i k : Nat)
    (hInv : s.Inv) : (readAux s dest i k).2.1.Inv := by
  induction k generalizing s dest i with
  | zero => exact hInv
  | succ k ih =>
      unfold readAux
      by_cases he : s.empty
      · simp only [he, if_true]
        exact hInv
      · simp only [he, if_false]
        exact ih _ _ _ (inv_get s hInv)

theorem inv_read (s : CircularBuff T) (dest : List T) (n : Nat)
    (hInv : s.Inv) : (s.read dest n).2.1.Inv :=
  inv_readAux s dest 0 n hInv

/-! Abstraction lemmas: `toList` exposes the FIFO contents, and `get`
consumes its first element. -/

theorem succ_mod_eq (t c : Nat) (h : t < c) :
    (t + 1) % c = if t + 1 = c then 0 else t + 1 := by
  split_ifs with h1
  · rw [h1, Nat.mod_self]
  · exact Nat.mod_eq_of_lt (by omega)

theorem toList_length (s : CircularBuff T) : s.toList.length = s.size := by
  unfold toList
  simp

theorem toList_getD (s : CircularBuff T) (m : Nat) (hm : m < s.size) :
    s.toList.getD m default =
      s.m_buf.getD ((s.m_tail + m) % s.m_maxSize) default := by
  unfold toList
  rw [List.getD_eq_getElem _ _ (by simpa using hm)]
  rw [List.getElem_map, List.getElem_range]

theorem get_fst (s : CircularBuff T) (hInv : s.Inv) (hne : s.empty = false) :
    (s.get).1 = s.toList.getD 0 default := by
  have hs : 1 ≤ s.size := one_le_size_of_not_empty s hInv hne
  rw [get_of_not_empty s hne, toList_getD s 0 (by omega)]
  simp [Nat.mod_eq_of_lt hInv.2.1]

theorem size_get (s : CircularBuff T) (hInv : s.Inv) (hne : s.empty = false) :
    (s.get).2.size = s.size - 1 := by
  obtain ⟨h1, h2, h3, h4⟩ := hInv
  rw [get_of_not_empty s hne]
  have hmod := succ_mod_eq s.m_tail s.m_maxSize h2
  unfold size
  cases hf : s.m_full with
  | true =>
      have hht := h4 hf
      simp only [Bool.false_eq_true, if_false, ge_iff_le]
      rw [hmod]
      split_ifs <;> omega
  | false =>
      have hne2 : s.m_head ≠ s.m_tail := by
        unfold empty at hne
        simpa [hf] using hne
      simp only [Bool.false_eq_true, if_false, ge_iff_le]
      rw [hmod]
      split_ifs <;> omega

theorem toList_get (s : CircularBuff T) (hInv : s.Inv) (hne : s.empty = false)
    (m : Nat) :
    (s.get).2.toList.getD m default = s.toList.getD (m + 1) default := by
  obtain ⟨h1, h2, h3, h4⟩ := hInv
  have hs : 1 ≤ s.size := one_le_size_of_not_empty s ⟨h1, h2, h3, h4⟩ hne
  have hsz : (s.get).2.size = s.size - 1 := size_get s ⟨h1, h2, h3, h4⟩ hne
  by_cases hm : m < s.size - 1
  · rw [toList_getD _ m (by omega)]
    rw [get_of_not_empty s hne] at hsz ⊢
    rw [toList_getD s (m + 1) (by omega)]
    simp only []
    rw [Nat.mod_add_mod]
    have : s.m_tail + 1 + m = s.m_tail + (m + 1) := by omega
    rw [this]
  · rw [List.getD_eq_default _ _ (by rw [toList_length]; omega),
      List.getD_eq_default _ _ (by rw [toList_length]; omega)]

theorem get_buf (s : CircularBuff T) (hne : s.empty = false) :
    (s.get).2.m_buf = s.m_buf := by
  rw [get_of_not_empty s hne]

/-- Full characterisation of the `read` loop: starting at index `i`
with `k` iterations remaining, the loop transfers exactly
`min k (size)` further elements, writes them in FIFO order at indices
`i, i+1, ...`, and touches no other slot of the destination. -/
theorem readAux_spec (k : Nat) (s : CircularBuff T) (dest : List T) (i : Nat)
    (hInv : s.Inv) (hlen : i + k ≤ dest.length) :
    (readAux s dest i k).1 = i + min k s.size ∧
    (readAux s dest i k).2.2.length = dest.length ∧
    (∀ j, j < i ∨ (readAux s dest i k).1 ≤ j →
        (readAux s dest i k).2.2.getD j default = dest.getD j default) ∧
    (∀ j, i ≤ j → j < (readAux s dest i k).1 →
        (readAux s dest i k).2.2.getD j default =
          s.toList.getD (j - i) default) := by
  induction k generalizing s dest i with
  | zero =>
      exact ⟨by simp [readAux], rfl, fun j _ => rfl, fun j hij hji => by
        simp only [readAux] at hji; omega⟩
  | succ k ih =>
      by_cases he : s.empty
      · have hsz : s.size = 0 := size_eq_zero_of_empty s he
        have hred : readAux s dest i (k + 1) = (i, s, dest) := by
          simp only [readAux]
          rw [if_pos he]
        rw [hred]
        exact ⟨by omega, rfl, fun j _ => rfl, fun j hij hji => by omega⟩
      · simp only [Bool.not_eq_true] at he
        have hs1 : 1 ≤ s.size := one_le_size_of_not_empty s hInv he
        have hInv2 : (s.get).2.Inv := inv_get s hInv
        have hlen1 : (i + 1) + k ≤ (dest.set i (s.get).1).length := by
          simp only [List.length_set]
          omega
        obtain ⟨hc, hl, hu, hw⟩ := ih (s.get).2 (dest.set i (s.get).1) (i + 1) hInv2 hlen1
        have hred : readAux s dest i (k + 1) =
            readAux (s.get).2 (dest.set i (s.get).1) (i + 1) k := by
          simp only [readAux]
          rw [if_neg (by simp [he])]
        rw [hred]
        have hszg : (s.get).2.size = s.size - 1 := size_get s hInv he
        refine ⟨?_, ?_, ?_, ?_⟩
        · rw [hc, hszg]
          omega
        · rw [hl]
          simp
        · intro j hj
          rcases hj with hj | hj
          · rw [hu j (Or.inl (by omega))]
            exact getD_set_ne _ _ _ _ _ (by omega)
          · rw [hu j (Or.inr hj)]
            have hcount : i + 1 ≤ (readAux (s.get).2 (dest.set i (s.get).1) (i + 1) k).1 := by
              rw [hc]
              omega
            exact getD_set_ne _ _ _ _ _ (by omega)
        · intro j hij hji
          by_cases hji2 : j = i
          · subst hji2
            rw [hu j (Or.inl (by omega)),
              getD_set_self _ _ _ _ (by omega),
              get_fst s hInv he, Nat.sub_self]
          · have hij1 : i + 1 ≤ j := by omega
            rw [hw j hij1 hji, toList_get s hInv he (j - (i + 1))]
            congr 1
            omega

end CircularBuff

/-! Claims. -/

/-- C1: the claim states that constructing a buffer with capacity 0
fails with an InvalidCapacity error surfaced to the caller, rather than
succeeding and later performing modulo-by-zero.  The code does the
opposite: `CircularBuff(size_t)` performs no validation, so
construction with capacity 0 succeeds (the buffer reports capacity 0
and empty), and the very first `put` then evaluates `% m_maxSize` with
`m_maxSize == 0` — undefined behaviour in C++, surfaced here as `putU`
returning `none`. -/
theorem c1_zero_capacity_unvalidated :
    (CircularBuff.ofCapacity 0 : CircularBuff Nat).capacity = 0 ∧
    (CircularBuff.ofCapacity 0 : CircularBuff Nat).empty = true ∧
    (CircularBuff.ofCapacity 0 : CircularBuff Nat).putU 1 = none := by
  decide

/-- C2: filling a capacity-5 buffer with the values 1,2,3,4,5 and then
putting 6 leaves the buffer full with size 5, and five successive gets
return 2,3,4,5,6 in that order — the oldest value 1 is silently
discarded.  In general, `put` on a full buffer produces the state with
the tail advanced by one slot mod capacity, the head advanced by one
slot mod capacity, and the item written at the old head slot (the C++
code writes at `m_buf[m_head]` before advancing the tail; since the
write position is `m_head`, this yields the same state as advancing the
tail first and then writing and advancing the head). -/
theorem c2_overwrite_on_full :
    (let s := ((((((CircularBuff.ofCapacity 5 :
        CircularBuff Nat).put 1).put 2).put 3).put 4).put 5).put 6
     let g1 := s.get
     let g2 := g1.2.get
     let g3 := g2.2.get
     let g4 := g3.2.get
     let g5 := g4.2.get
     s.full = true ∧ s.size = 5 ∧
     g1.1 = 2 ∧ g2.1 = 3 ∧ g3.1 = 4 ∧ g4.1 = 5 ∧ g5.1 = 6) ∧
    (∀ (U : Type) [Inhabited U] (s : CircularBuff U) (x : U),
      s.m_full = true →
      (s.put x).m_tail = (s.m_tail + 1) % s.m_maxSize ∧
      (s.put x).m_head = (s.m_head + 1) % s.m_maxSize ∧
      (s.put x).m_buf = s.m_buf.set s.m_head x) := by
  refine ⟨by decide, ?_⟩
  intro U _ s x hf
  unfold CircularBuff.put
  simp [hf]

theorem c2_overwrite_on_full_witness :
    ((CircularBuff.ofCapacity 1 : CircularBuff Nat).put 7).m_full = true ∧
    ((((CircularBuff.ofCapacity 1 : CircularBuff Nat).put 7).put 8).m_tail =
      (((CircularBuff.ofCapacity 1 : CircularBuff Nat).put 7).m_tail + 1) %
        ((CircularBuff.ofCapacity 1 : CircularBuff Nat).put 7).m_maxSize) :=
  ⟨by decide,
   (c2_overwrite_on_full.2 Nat ((CircularBuff.ofCapacity 1).put 7) 8
     (by decide)).1⟩

/-- C3: for every buffer state satisfying the state invariant (so with
capacity greater than 0) that is empty, and every value `x`,
`put(x)` followed by `get()` returns exactly `x` and leaves the buffer
empty again. -/
theorem c3_put_get_roundtrip {T : Type} [Inhabited T] (s : CircularBuff T)
    (x : T) (hInv : s.Inv) (he : s.empty = true) :
    ((s.put x).get).1 = x ∧ ((s.put x).get).2.empty = true := by
  obtain ⟨h1, h2, h3, _⟩ := hInv
  have hf : s.m_full = false ∧ s.m_head = s.m_tail := by
    unfold CircularBuff.empty at he
    simpa using he
  have hne := CircularBuff.empty_put s x
  have hbuf : (s.put x).m_buf = s.m_buf.set s.m_head x := rfl
  have hhead : (s.put x).m_head = (s.m_head + 1) % s.m_maxSize := rfl
  have hmax : (s.put x).m_maxSize = s.m_maxSize := rfl
  have htail : (s.put x).m_tail = s.m_tail := by
    unfold CircularBuff.put
    simp [hf.1]
  rw [CircularBuff.get_of_not_empty _ hne]
  constructor
  · simp only [hbuf, htail]
    rw [← hf.2]
    exact CircularBuff.getD_set_self _ _ _ _ (by omega)
  · unfold CircularBuff.empty
    simp only [htail, hhead, hmax, hf.2, Bool.not_false, Bool.true_and,
      beq_iff_eq]

theorem c3_put_get_roundtrip_witness :
    (CircularBuff.ofCapacity 3 : CircularBuff Nat).Inv ∧
    (CircularBuff.ofCapacity 3 : CircularBuff Nat).empty = true ∧
    ((((CircularBuff.ofCapacity 3 : CircularBuff Nat).put 42).get).1 = 42 ∧
      (((CircularBuff.ofCapacity 3 : CircularBuff Nat).put 42).get).2.empty = true) :=
  ⟨by decide, by decide,
   c3_put_get_roundtrip (CircularBuff.ofCapacity 3) 42 (by decide) (by decide)⟩

/-- C4: in every buffer state satisfying the state invariant, `size()`
returns the capacity when the full flag is set, and otherwise the
branching computation (`head - tail` when `head >= tail`, else
`capacity + head - tail`) returns exactly `(head - tail) mod capacity`
computed over the integers. -/
theorem c4_size_formula {T : Type} [Inhabited T] (s : CircularBuff T)
    (hInv : s.Inv) :
    (s.m_full = true → s.size = s.m_maxSize) ∧
    (s.m_full = false →
      (s.size : ℤ) =
        ((s.m_head : ℤ) - (s.m_tail : ℤ)) % (s.m_maxSize : ℤ)) := by
  obtain ⟨h1, h2, _, _⟩ := hInv
  constructor
  · intro hfull
    unfold CircularBuff.size
    simp [hfull]
  · intro hfull
    unfold CircularBuff.size
    simp only [hfull, Bool.false_eq_true, if_false, ge_iff_le]
    split_ifs with hge
    · rw [Int.emod_eq_of_lt (by omega) (by omega)]
      omega
    · have key : ((s.m_head : ℤ) - s.m_tail + s.m_maxSize) % s.m_maxSize =
          ((s.m_head : ℤ) - s.m_tail) % s.m_maxSize := by
        simp [Int.add_mul_emod_self_left]
      rw [← key, Int.emod_eq_of_lt (by omega) (by omega)]
      omega

theorem c4_size_formula_witness :
    (let s : CircularBuff Nat :=
      { m_buf := [0, 0, 0, 0], m_head := 1, m_tail := 3,
        m_maxSize := 4, m_full := false }
     s.Inv ∧
     (s.m_full = true → s.size = s.m_maxSize) ∧
     (s.m_full = false →
       (s.size : ℤ) =
         ((s.m_head : ℤ) - (s.m_tail : ℤ)) % (s.m_maxSize : ℤ))) :=
  ⟨by decide,
   c4_size_formula
     { m_buf := [0, 0, 0, 0], m_head := 1, m_tail := 3,
       m_maxSize := 4, m_full := false } (by decide)⟩

/-- C5: `get()` on an empty buffer returns the value-initialised
default of `T` and leaves the entire state (all fields, hence head,
tail, full flag and stored elements) unchanged; no error is raised. -/
theorem c5_get_on_empty {T : Type} [Inhabited T] (s : CircularBuff T)
    (h : s.empty = true) : s.get = (default, s) :=
  CircularBuff.get_of_empty s h

theorem c5_get_on_empty_witness :
    (CircularBuff.ofCapacity 3 : CircularBuff Nat).empty = true ∧
    (CircularBuff.ofCapacity 3 : CircularBuff Nat).get =
      (default, CircularBuff.ofCapacity 3) :=
  ⟨by decide, c5_get_on_empty _ (by decide)⟩

/-- C6: for every buffer state satisfying the state invariant and
every request of `n` elements into a destination with at least `n`
slots, `read(dest, n)` returns exactly `min(n, size())` — in
particular, with `n > size()` it returns exactly `size()` elements —
writes the returned count of elements into `dest` in FIFO order at
indices `0..count-1`, leaves every slot of `dest` at index `>= count`
untouched (the destination even keeps its length), and performs no
out-of-bounds access: every write lands at an index below
`count <= n <= dest.length` and every buffer read is at the in-range
tail cursor. -/
theorem c6_read_bounded {T : Type} [Inhabited T] (s : CircularBuff T)
    (dest : List T) (n : Nat) (hInv : s.Inv) (hn : n ≤ dest.length) :
    (s.read dest n).1 = min n s.size ∧
    (s.read dest n).2.2.length = dest.length ∧
    (∀ j, j < (s.read dest n).1 →
        (s.read dest n).2.2.getD j default = s.toList.getD j default) ∧
    (∀ j, (s.read dest n).1 ≤ j →
        (s.read dest n).2.2.getD j default = dest.getD j default) := by
  unfold CircularBuff.read
  obtain ⟨hc, hl, hu, hw⟩ :=
    CircularBuff.readAux_spec n s dest 0 hInv (by omega)
  refine ⟨by rw [hc]; omega, hl, ?_, fun j hj => hu j (Or.inr hj)⟩
  intro j hj
  have h := hw j (Nat.zero_le j) hj
  simpa using h

theorem c6_read_bounded_witness :
    (let s := ((CircularBuff.ofCapacity 3 : CircularBuff Nat).put 1).put 2
     let dest : List Nat := [9, 9, 9, 9]
     s.Inv ∧ 4 ≤ dest.length ∧
     ((s.read dest 4).1 = min 4 s.size ∧
      (s.read dest 4).2.2.length = dest.length ∧
      (∀ j, j < (s.read dest 4).1 →
          (s.read dest 4).2.2.getD j default = s.toList.getD j default) ∧
      (∀ j, (s.read dest 4).1 ≤ j →
          (s.read dest 4).2.2.getD j default = dest.getD j default))) :=
  ⟨by decide, by decide,
   c6_read_bounded (((CircularBuff.ofCapacity 3 : CircularBuff Nat).put 1).put 2)
     [9, 9, 9, 9] 4 (by decide) (by decide)⟩

/-- C7: every public operation — construction with positive capacity,
`put`, `get`, `reset`, `write`, `read` (the read-only queries do not
change the state) — preserves the state invariants: the head and tail
cursors stay strictly below the capacity (so `0 <= head, tail <
capacity`), the backing store keeps exactly `capacity` slots, the full
flag is only set when the cursors coincide, and the buffer is empty
exactly when the full flag is clear and `head == tail`. -/
theorem c7_ops_preserve_inv {T : Type} [Inhabited T] (s : CircularBuff T)
    (x : T) (items dest : List T) (n cap : Nat) (hInv : s.Inv)
    (hcap : 0 < cap) :
    (CircularBuff.ofCapacity cap : CircularBuff T).Inv ∧
    (s.put x).Inv ∧ (s.get).2.Inv ∧ s.reset.Inv ∧
    (s.write items).Inv ∧ (s.read dest n).2.1.Inv ∧
    (s.empty = true ↔ s.m_full = false ∧ s.m_head = s.m_tail) :=
  ⟨CircularBuff.inv_ofCapacity cap hcap, CircularBuff.inv_put s x hInv,
   CircularBuff.inv_get s hInv, CircularBuff.inv_reset s hInv,
   CircularBuff.inv_write s items hInv, CircularBuff.inv_read s dest n hInv,
   by unfold CircularBuff.empty; simp⟩

theorem c7_ops_preserve_inv_witness :
    (let s := (CircularBuff.ofCapacity 2 : CircularBuff Nat).put 3
     s.Inv ∧ 0 < 2 ∧
     ((CircularBuff.ofCapacity 2 : CircularBuff Nat).Inv ∧
      (s.put 4).Inv ∧ (s.get).2.Inv ∧ s.reset.Inv ∧
      (s.write [5, 6, 7]).Inv ∧ (s.read [9, 9] 2).2.1.Inv ∧
      (s.empty = true ↔ s.m_full = false ∧ s.m_head = s.m_tail))) :=
  ⟨by decide, by decide,
   c7_ops_preserve_inv ((CircularBuff.ofCapacity 2 : CircularBuff Nat).put 3)
     4 [5, 6, 7] [9, 9] 2 2 (by decide) (by decide)⟩

/-- C8: `reset()` on any buffer yields `empty() == true`,
`size() == 0`, an unchanged `capacity()`, leaves the stored slot
contents untouched (`m_buf` unchanged), and a subsequent `get()`
returns the empty sentinel with the state unchanged rather than any
pre-reset stale value. -/
theorem c8_reset_spec {T : Type} [Inhabited T] (s : CircularBuff T) :
    s.reset.empty = true ∧ s.reset.size = 0 ∧
    s.reset.capacity = s.capacity ∧ s.reset.m_buf = s.m_buf ∧
    s.reset.get = (default, s.reset) := by
  have he : s.reset.empty = true := by
    unfold CircularBuff.reset CircularBuff.empty
    simp
  exact ⟨he, CircularBuff.size_eq_zero_of_empty _ he, rfl, rfl,
    CircularBuff.get_of_empty _ he⟩

theorem c8_reset_spec_witness :
    (let s := ((CircularBuff.ofCapacity 2 : CircularBuff Nat).put 4).put 9
     s.reset.empty = true ∧ s.reset.size = 0 ∧
     s.reset.capacity = s.capacity ∧ s.reset.m_buf = s.m_buf ∧
     s.reset.get = (default, s.reset)) :=
  c8_reset_spec (((CircularBuff.ofCapacity 2 : CircularBuff Nat).put 4).put 9)

/-- C9: immediately after `put(item)` on any buffer satisfying the
state invariant (so any buffer with positive capacity), the buffer is
non-empty: `empty()` returns false and `size()` is at least 1. -/
theorem c9_put_nonempty {T : Type} [Inhabited T] (s : CircularBuff T)
    (x : T) (hInv : s.Inv) :
    (s.put x).empty = false ∧ 1 ≤ (s.put x).size :=
  ⟨CircularBuff.empty_put s x,
   CircularBuff.one_le_size_of_not_empty _ (CircularBuff.inv_put s x hInv)
     (CircularBuff.empty_put s x)⟩

theorem c9_put_nonempty_witness :
    (CircularBuff.ofCapacity 4 : CircularBuff Nat).Inv ∧
    (((CircularBuff.ofCapacity 4 : CircularBuff Nat).put 5).empty = false ∧
      1 ≤ ((CircularBuff.ofCapacity 4 : CircularBuff Nat).put 5).size) :=
  ⟨by decide, c9_put_nonempty (CircularBuff.ofCapacity 4) 5 (by decide)⟩

/-- C10: immediately after `get()` on a non-empty buffer, `full()`
returns false: the non-empty branch of `get` unconditionally clears the
full flag, even when the buffer was completely full beforehand. -/
theorem c10_get_clears_full {T : Type} [Inhabited T] (s : CircularBuff T)
    (h : s.empty = false) : ((s.get).2).full = false := by
  rw [CircularBuff.get_of_not_empty s h]
  rfl

theorem c10_get_clears_full_witness :
    (let s := ((CircularBuff.ofCapacity 2 : CircularBuff Nat).put 1).put 2
     s.empty = false ∧ ((s.get).2).full = false) :=
  ⟨by decide,
   c10_get_clears_full (((CircularBuff.ofCapacity 2 : CircularBuff Nat).put 1).put 2)
     (by decide)⟩
